import Mathlib

/-!
Verification of the solar-data cleaning and aggregation pipeline.

The development shallowly embeds the two components the claims are about:

* `SolarDataCleaner` (src/src/data_cleaner.py): missing-value imputation,
  Z-score outlier detection, outlier capping (Winsorization);
* `CrossCountrySynthesizer` (src/scripts/cross_country_synthesis.py):
  aggregation of per-country tables and per-country summary statistics.

Conventions of the embedding:

* A cell value is `Option ℚ`: `none` models a pandas null (`NaN`) cell,
  `some v` a numeric value.  Rationals stand in for IEEE doubles; the claims
  under study are about which rows are selected / replaced / ordered, not
  about rounding, and all concrete witnesses use exactly representable values.
* A dataframe is an ordered association list of named columns.
* Standard deviations are square roots, which do not exist inside ℚ.  The
  embedding therefore (a) expresses each Z-score comparison `|z| > t`
  (for a threshold `t ≥ 0`, as in all uses of the code) in the equivalent
  squared form `(x - mean)^2 * n > t^2 * sumSqDev`, and (b) passes the
  sample standard deviation used by `cap_outliers` as an explicit number
  constrained by `IsSampleStd` (`0 ≤ s` and `s^2 = sample variance`), so
  that concrete instances pick columns whose variance is a perfect square.
-/

namespace SolarSpec

/- Concrete witnesses evaluate rational arithmetic with `decide`; the kernel
reduces the core `Rat` operations fine, they are merely sealed for the
elaborator, so they are reopened for this file. -/
attribute [local semireducible] Rat.mul Rat.inv Rat.add Rat.sub

/-- A cell of a dataframe: `none` is a pandas null (`NaN`). -/
abbrev Val := Option ℚ

/-- A single dataframe column, as stored: one cell per row. -/
abbrev Col := List Val

/-- A dataframe: ordered association list of named columns
(the column axis of a `pandas.DataFrame`). -/
abbrev Table := List (String × Col)

/-- The non-null values of a column, in row order
(pandas `Series.dropna()`, and the values all `skipna` statistics see). -/
def nonNull (xs : Col) : List ℚ :=
  xs.filterMap id

/-- Whether the column contains at least one null cell. -/
def hasNull (xs : Col) : Bool :=
  xs.any (·.isNone)

/-- Arithmetic mean of a list of rationals (`Series.mean`).
Division by zero in ℚ yields 0; every use below is guarded by nonemptiness. -/
def mean (vs : List ℚ) : ℚ :=
  vs.sum / vs.length

/-- Sum of squared deviations from the mean, the common numerator of both
variances appearing in the code. -/
def sumSqDev (vs : List ℚ) : ℚ :=
  (vs.map (fun v => (v - mean vs) ^ 2)).sum

/-- Population variance (`ddof = 0`), the square of the standard deviation
used by `scipy.stats.zscore` in `detect_outliers`. -/
def popVar (vs : List ℚ) : ℚ :=
  sumSqDev vs / vs.length

/-- Sample variance (`ddof = 1`), the square of the standard deviation
`Series.std()` used by `cap_outliers`; 0 when fewer than two values
(pandas reports `NaN` there, and the capping code then leaves the column
unchanged, see `capColWith`). -/
def sampleVar (vs : List ℚ) : ℚ :=
  if vs.length ≤ 1 then 0 else sumSqDev vs / ((vs.length : ℚ) - 1)

/-- `s` is the sample standard deviation of the non-null part of `xs`:
nonnegative with `s ^ 2` the sample variance. -/
def IsSampleStd (xs : Col) (s : ℚ) : Prop :=
  0 ≤ s ∧ s ^ 2 = sampleVar (nonNull xs)

instance (xs : Col) (s : ℚ) : Decidable (IsSampleStd xs s) :=
  inferInstanceAs (Decidable (_ ∧ _))

/-- Column lookup: `df[c]`, `none` when the column is absent (first match
of the name in the ordered column list). -/
def getCol : Table → String → Option Col
  | [], _ => none
  | p :: T, c => if p.1 = c then some p.2 else getCol T c

/-- Row count of the dataframe (`len(df)`); every column of a dataframe has
this length, which the rectangularity hypothesis `Rect` makes explicit. -/
def nrows (T : Table) : Nat :=
  match T with
  | [] => 0
  | p :: _ => p.2.length

/-- All columns have the common length `nrows T` — automatically true of a
`pandas.DataFrame`, an explicit hypothesis for the association-list model. -/
def Rect (T : Table) : Prop :=
  ∀ p ∈ T, p.2.length = nrows T

instance (T : Table) : Decidable (Rect T) :=
  List.decidableBAll _ T

/-- Rewrite one named column in place, leaving every other column untouched
(the effect of `df[col] = ...` on the column axis). Absent names are a no-op,
mirroring the `if col not in df.columns: continue` guards of the code. -/
def updateCol (T : Table) (c : String) (f : Col → Col) : Table :=
  T.map (fun p => if p.1 = c then (p.1, f p.2) else p)

/-! ### `SolarDataCleaner.detect_outliers` (data_cleaner.py lines 110–159)

Per column the code computes
`outlier_mask = np.abs(stats.zscore(df[col])) > z_threshold` on the FULL
column (line 144; the `dropna()` z-scores of line 140 are computed and never
used).  `scipy.stats.zscore` defaults to `ddof = 0` (population standard
deviation) and `nan_policy = propagate`, so:

* a column containing any null has all-NaN z-scores and `NaN > t` is false —
  no row is flagged from that column;
* a zero-variance column gives `0 / 0 = NaN` z-scores — again no row flagged;
* otherwise row `i` is flagged iff `|x_i - mean| / popStd > t`, which for
  `t ≥ 0` (the code's thresholds are positive, default 3.0) is equivalent to
  the rational comparison `(x_i - mean)^2 * n > t^2 * sumSqDev`.
-/

/-- The boolean mask `np.abs(stats.zscore(df[col])) > z_threshold` of
`detect_outliers` for one column, for a threshold `t ≥ 0`. -/
def zscoreMask (xs : Col) (t : ℚ) : List Bool :=
  if hasNull xs then xs.map (fun _ => false)
  else
    let vs := nonNull xs
    if sumSqDev vs = 0 then xs.map (fun _ => false)
    else
      xs.map (fun x =>
        match x with
        | some v => decide ((v - mean vs) ^ 2 * vs.length > t ^ 2 * sumSqDev vs)
        | none => false)

/-- One iteration of the column loop of `detect_outliers`:
`df.loc[outlier_mask, 'Outlier_Flag'] = True` ORs the current column's mask
into the flag column; an absent column is skipped. -/
def orMaskStep (T : Table) (t : ℚ) (flags : List Bool) (c : String) : List Bool :=
  match getCol T c with
  | none => flags
  | some xs => flags.zipWith (fun a b => a || b) (zscoreMask xs t)

/-- The `Outlier_Flag` column built by the loop of `detect_outliers`:
initialized all-false (`df_with_flags['Outlier_Flag'] = False`), then one
`orMaskStep` per listed column. -/
def detectFlags (T : Table) (cols : List String) (t : ℚ) : List Bool :=
  cols.foldl (orMaskStep T t) (List.replicate (nrows T) false)

/-- `detect_outliers(columns, z_threshold)`: returns the working table (its
data columns unchanged) together with the added boolean `Outlier_Flag`
column, which the model keeps out-of-band since cells are numeric. -/
def detectOutliers (T : Table) (cols : List String) (t : ℚ) : Table × List Bool :=
  (T, detectFlags T cols t)

/-! ### `SolarDataCleaner.impute_missing_values` (lines 69–108) -/

/-- Insertion of one value into a sorted list (ascending). -/
def insertSorted (x : ℚ) : List ℚ → List ℚ
  | [] => [x]
  | y :: r => if x ≤ y then x :: y :: r else y :: insertSorted x r

/-- Insertion sort, ascending — the order pandas uses for `median` and for
the tied values returned by `mode()`. -/
def sortQ (l : List ℚ) : List ℚ :=
  l.foldr insertSorted []

/-- `Series.median()` over the non-null values: middle element of the sorted
values for odd count, average of the two middle elements for even count. -/
def median (vs : List ℚ) : ℚ :=
  let s := sortQ vs
  let n := vs.length
  if n % 2 = 1 then s.getD (n / 2) 0
  else (s.getD (n / 2 - 1) 0 + s.getD (n / 2) 0) / 2

/-- Number of occurrences of each value's multiplicity is compared against
this maximum (`Series.value_counts().max()` inside `mode`). -/
def maxCount (vs : List ℚ) : Nat :=
  (vs.map (fun v => vs.count v)).foldr max 0

/-- The tied most-frequent values, in row order (each repeated). -/
def modeCandidates (vs : List ℚ) : List ℚ :=
  vs.filter (fun v => vs.count v = maxCount vs)

/-- Minimum of a list of rationals, 0 for the empty list. -/
def listMin : List ℚ → ℚ
  | [] => 0
  | [a] => a
  | a :: b :: r => min a (listMin (b :: r))

/-- Maximum of a list of rationals, 0 for the empty list. -/
def listMax : List ℚ → ℚ
  | [] => 0
  | [a] => a
  | a :: b :: r => max a (listMax (b :: r))

/-- The fill value `df[col].mode()[0] if len(df[col].mode()) > 0 else 0`:
pandas `Series.mode()` drops nulls and returns the tied most-frequent values
SORTED ASCENDING, so element `[0]` is the smallest tied mode; on a column
with zero non-null values `mode()` is empty and the code falls back to 0. -/
def modeFill (xs : Col) : ℚ :=
  let vs := nonNull xs
  if vs = [] then 0 else listMin (modeCandidates vs)

/-- The three imputation methods of `impute_missing_values` ('median',
'mean', 'mode'); any other string raises and is outside the model. -/
inductive ImputeMethod
  | medianM
  | meanM
  | modeM
deriving DecidableEq, Repr

/-- The fill value computed for one column.  `none` models the `NaN` that
`median()`/`mean()` return on a column with zero non-null values, in which
case `fillna(NaN)` changes nothing. -/
def fillValue (xs : Col) : ImputeMethod → Option ℚ
  | .medianM => if nonNull xs = [] then none else some (median (nonNull xs))
  | .meanM => if nonNull xs = [] then none else some (mean (nonNull xs))
  | .modeM => some (modeFill xs)

/-- `df[col].fillna(fill_value)` for one column. -/
def imputeCol (xs : Col) (m : ImputeMethod) : Col :=
  match fillValue xs m with
  | none => xs
  | some f => xs.map (fun x => some (x.getD f))

/-- `impute_missing_values(columns, method)`: fills each listed column that
is present, leaves every other column untouched. -/
def imputeTable (T : Table) (cols : List String) (m : ImputeMethod) : Table :=
  cols.foldl (fun acc c => updateCol acc c (fun xs => imputeCol xs m)) T

/-! ### `SolarDataCleaner.cap_outliers` (lines 161–207)

Per column: `mean = df[col].mean()`, `std = df[col].std()` (sample standard
deviation, `ddof = 1`), bounds `mean ± z_threshold * std`, then
`df[col].clip(lower, upper)`.  On a column with fewer than two non-null
values `std()` is `NaN`, the bounds are `NaN`, and `clip` leaves every value
unchanged.  The sample standard deviation is injected as an explicit number
`s` (constrained by `IsSampleStd` in the theorems) because square roots do
not exist in ℚ. -/

/-- `Series.clip(lower, upper)` on one value: pandas clamps below then
above, and leaves null cells null. -/
def clip (lo hi x : ℚ) : ℚ :=
  min hi (max lo x)

/-- Capping of one column given its sample standard deviation `s` and the
threshold `t`: identity when fewer than two non-null values (NaN bounds),
otherwise clamp every non-null cell into `[mean - t*s, mean + t*s]`. -/
def capColWith (xs : Col) (s t : ℚ) : Col :=
  let vs := nonNull xs
  if vs.length ≤ 1 then xs
  else xs.map (fun x => x.map (clip (mean vs - t * s) (mean vs + t * s)))

/-- `cap_outliers(columns, z_threshold)`: the column loop, consuming the
per-column standard deviations in loop order.  The statistics of a later
column are taken from the table already capped in the earlier columns,
exactly as the code recomputes them from `df_capped`. -/
def capOutliers (t : ℚ) : List (String × ℚ) → Table → Table
  | [], T => T
  | (c, s) :: rest, T => capOutliers t rest (updateCol T c (fun xs => capColWith xs s t))

/-- The per-entry view of the capping loop: each loop iteration touches a
table entry only through that entry's own column (`capColWith` reads and
writes nothing but its column), so running the whole loop is the same as
mapping this per-entry fold over the table — `capOutliers_eq_map` below
proves the two views equal.  An entry named in the list several times is
capped several times, each time from its current (already-capped) values,
exactly as the code recomputes statistics from `df_capped`. -/
def capEntry (t : ℚ) (ps : List (String × ℚ)) (p : String × Col) : String × Col :=
  ps.foldl (fun q cs => if q.1 = cs.1 then (q.1, capColWith q.2 cs.2 t) else q) p

/-- The injected standard deviations are the ones the code would compute:
each listed `s` is the sample standard deviation of its column as found in
the table at that point of the loop (vacuous for absent columns). -/
def goodStds (t : ℚ) : List (String × ℚ) → Table → Bool
  | [], _ => true
  | (c, s) :: rest, T =>
      (match getCol T c with
       | none => true
       | some xs => decide (IsSampleStd xs s)) &&
      goodStds t rest (updateCol T c (fun xs => capColWith xs s t))

/-! ### `SolarDataCleaner.detect_missing_values` (lines 41–67)

Pure reads: per-column null counts and percentages and the columns whose
percentage exceeds `threshold * 100`; builds a statistics record and leaves
the working table alone. -/

/-- `df.isna().sum()` per column. -/
def missingByColumn (T : Table) : List (String × Nat) :=
  T.map (fun p => (p.1, p.2.countP (·.isNone)))

/-- `missing_pct = missing / len(df) * 100` per column. -/
def missingPct (T : Table) : List (String × ℚ) :=
  T.map (fun p => (p.1, ((p.2.countP (·.isNone) : ℚ) / (nrows T : ℚ)) * 100))

/-- The result record of `detect_missing_values`. -/
structure MissingStats where
  totalMissing : Nat
  missingBy : List (String × Nat)
  missingPercentage : List (String × ℚ)
  highMissingColumns : List (String × ℚ)
deriving DecidableEq, Repr

/-- `detect_missing_values(threshold)`: read-only statistics. -/
def detectMissingValues (T : Table) (threshold : ℚ) : MissingStats :=
  { totalMissing := ((missingByColumn T).map (·.2)).sum
    missingBy := missingByColumn T
    missingPercentage := missingPct T
    highMissingColumns := (missingPct T).filter (fun p => p.2 > threshold * 100) }

/-! ### `CrossCountrySynthesizer` (scripts/cross_country_synthesis.py)

Rows of the aggregated table carry the site tag that
`df['Country'] = country_name` attaches to every row of a loaded file; the
row payload keeps the file's own cells as an association list.  The
filesystem is an association list from path to file contents, and a missing
path makes `pd.read_csv` raise `FileNotFoundError`. -/

/-- The cells of one CSV row, by column name. -/
abbrev RowData := List (String × Val)

/-- A row of the combined table: the site tag plus the original cells. -/
structure TaggedRow where
  country : String
  data : RowData
deriving DecidableEq, Repr

/-- The combined (aggregated) table. -/
abbrev CTable := List TaggedRow

/-- The filesystem visible to `pd.read_csv`: path to parsed rows. -/
abbrev FileSystem := List (String × List RowData)

/-- Errors of the synthesis component: `FileNotFoundError` from a missing
path, and the `ValueError("No data loaded...")` guard of the statistics and
export methods when `combined_data` is still `None`. -/
inductive SynthErr
  | notFound (path : String)
  | notReady
deriving DecidableEq, Repr

instance {ε α : Type} [DecidableEq ε] [DecidableEq α] : DecidableEq (Except ε α)
  | .ok a, .ok b =>
      if h : a = b then .isTrue (by rw [h]) else .isFalse (fun hc => h (by cases hc; rfl))
  | .ok _, .error _ => .isFalse (fun hc => by cases hc)
  | .error _, .ok _ => .isFalse (fun hc => by cases hc)
  | .error e, .error e' =>
      if h : e = e' then .isTrue (by rw [h]) else .isFalse (fun hc => h (by cases hc; rfl))

/-- `pd.read_csv(path)`, `none` when the path is missing. -/
def readCsv (fs : FileSystem) (path : String) : Option (List RowData) :=
  (fs.find? (fun p => p.1 = path)).map (·.2)

/-- The mutable fields of `CrossCountrySynthesizer` the claims are about:
the per-country dictionary and the combined table (`None` until the first
successful aggregation). -/
structure SynthState where
  countriesData : List (String × CTable)
  combinedData : Option CTable
deriving DecidableEq, Repr

/-- `df['Country'] = country_name`: every row of the file gets the tag. -/
def tagRows (country : String) (rows : List RowData) : CTable :=
  rows.map (fun d => ⟨country, d⟩)

/-- Python dict assignment `self.countries_data[country_name] = df`:
overwrite the existing key or append. -/
def setEntry : List (String × CTable) → String → CTable → List (String × CTable)
  | [], c, df => [(c, df)]
  | (k, v) :: r, c, df => if k = c then (c, df) :: r else (k, v) :: setEntry r c df

/-- `load_country_data(country_name, file_path)` (lines 46–74): read the
file, tag the rows, store them in the dictionary.  (The timestamp
re-parsing of line 69 does not change row identity and is not modelled.) -/
def loadCountryData (fs : FileSystem) (st : SynthState) (country path : String) :
    Except SynthErr (SynthState × CTable) :=
  match readCsv fs path with
  | none => .error (.notFound path)
  | some rows =>
      let df := tagRows country rows
      .ok ({ st with countriesData := setEntry st.countriesData country df }, df)

/-- The loop of `aggregate_all_countries` (lines 92–101): load each listed
country in order, collecting the tagged tables; `combined_data` is assigned
only after the whole loop, so a raise mid-loop leaves it untouched. -/
def aggregateGo (fs : FileSystem) :
    List (String × String) → SynthState → List CTable → SynthState × Except SynthErr CTable
  | [], st, acc =>
      let combined := acc.flatten
      ({ st with combinedData := some combined }, .ok combined)
  | (c, p) :: rest, st, acc =>
      match loadCountryData fs st c p with
      | .error e => (st, .error e)
      | .ok (st2, df) => aggregateGo fs rest st2 (acc ++ [df])

/-- `aggregate_all_countries(file_mapping)`: the mapping is an ordered list
of (country, path) pairs, as a Python dict iterates in insertion order. -/
def aggregateAllCountries (fs : FileSystem) (st : SynthState)
    (mapping : List (String × String)) : SynthState × Except SynthErr CTable :=
  aggregateGo fs mapping st []

/-! ### `CrossCountrySynthesizer.get_summary_statistics` (lines 103–137) -/

/-- The cell of one row under a column name (`none` both for a stored null
and for a column the row does not have — pandas shows `NaN` for both after
`concat`). -/
def rowVal (r : TaggedRow) (c : String) : Val :=
  match r.data.find? (fun p => p.1 = c) with
  | some p => p.2
  | none => none

/-- The non-null values of one column over a set of rows, in row order
(what the pandas `skipna` statistics of `get_summary_statistics` see). -/
def colValues (rows : CTable) (c : String) : List ℚ :=
  rows.filterMap (fun r => rowVal r c)

/-- `col in country_df.columns`: after `concat` the column set of the
combined frame is the union of the files' columns, so presence is presence
in some row. -/
def colPresent (rows : CTable) (c : String) : Bool :=
  rows.any (fun r => (r.data.find? (fun p => p.1 = c)).isSome)

/-- The five per-column aggregates of `get_summary_statistics`.  `varS` is
the sample variance; the code reports its square root as `{col}_std`
(square roots do not exist in ℚ, and no claim depends on the std value
itself). -/
structure ColStats where
  meanS : ℚ
  medianS : ℚ
  varS : ℚ
  minS : ℚ
  maxS : ℚ
deriving DecidableEq, Repr

/-- The aggregates of one column from its non-null values. -/
def colStats (vs : List ℚ) : ColStats :=
  ⟨mean vs, median vs, sampleVar vs, listMin vs, listMax vs⟩

/-- One row of the summary table: the country plus its per-column stats. -/
structure SummaryRow where
  country : String
  stats : List (String × ColStats)
deriving DecidableEq, Repr

/-- `pandas.Series.unique()`: the values in order of first appearance. -/
def uniqueFirstAux : List String → List String → List String
  | [], _ => []
  | a :: r, seen => if a ∈ seen then uniqueFirstAux r seen else a :: uniqueFirstAux r (seen ++ [a])

/-- The distinct site tags in order of first appearance. -/
def uniqueFirst (l : List String) : List String :=
  uniqueFirstAux l []

/-- The stats row built for one country: filter the combined rows to the
country, aggregate each requested column that is present. -/
def summaryRow (rows : CTable) (cols : List String) (ctry : String) : SummaryRow :=
  { country := ctry
    stats := (cols.filter (fun c => colPresent rows c)).map
      (fun c => (c, colStats (colValues (rows.filter (fun r => r.country = ctry)) c))) }

/-- `get_summary_statistics(columns)`: raises when `combined_data` is
`None`; otherwise one row per distinct country, in `unique()` (first
appearance) order — the code never sorts the result. -/
def getSummaryStatistics (combined : Option CTable) (cols : List String) :
    Except SynthErr (List SummaryRow) :=
  match combined with
  | none => .error .notReady
  | some rows => .ok ((uniqueFirst (rows.map (·.country))).map (summaryRow rows cols))

/-! ### Object identity of the cleaner (claim about mutation)

Python dataframes are heap objects; `df.copy()` allocates a fresh one and
the in-place operations of the cleaner (`fillna(..., inplace=True)`,
`df.loc[mask, col] = ...`) write to whichever object they are applied to.
The model makes this explicit: a heap of tables addressed by `Nat`
references, allocation = append.  Each cleaner method's net effect on the
heap follows the source line by line: every method first copies its input
(`__init__` line 36, `impute` line 90, `detect` line 128, `cap` line 182)
and its in-place writes then target only that fresh copy, so each method
allocates one new table and redirects the cleaner's own references.
`detect_outliers`' boolean `Outlier_Flag` column lives out-of-band in this
model (cells are numeric); dropping it from the stored table is harmless to
the frame property, which quantifies over all data columns. -/

/-- The heap of dataframe objects; a reference is an index. -/
abbrev Heap := List Table

/-- Dereference (out-of-range reads the empty table; all modelled programs
only read references they allocated). -/
def heapGet (h : Heap) (r : Nat) : Table :=
  h.getD r []

/-- The references held by a `SolarDataCleaner`: `self.df` and
`self.df_cleaned` (`None` until `cap_outliers` ran). -/
structure CleanerState where
  dfRef : Nat
  dfCleanedRef : Option Nat
deriving DecidableEq, Repr

/-- `SolarDataCleaner.__init__`: `self.df = df.copy()` — allocate a fresh
object holding the caller's table's contents. -/
def initCleaner (h : Heap) (callerRef : Nat) : Heap × CleanerState :=
  (h ++ [heapGet h callerRef], ⟨h.length, none⟩)

/-- One chained call on the cleaner (the report-only threshold / the column
lists / the injected standard deviations are the call's arguments). -/
inductive CleanerOp
  | missingOp (threshold : ℚ)
  | imputeOp (cols : List String) (m : ImputeMethod)
  | detectOp (cols : List String) (t : ℚ)
  | capOp (ps : List (String × ℚ)) (t : ℚ)

/-- The net heap effect of one cleaner method:
`detect_missing_values` only reads (its statistics are `detectMissingValues`
of the working table); the other three allocate the copy they modify and
redirect `self.df` (impute, detect) or `self.df_cleaned` (cap). -/
def runOp (h : Heap) (st : CleanerState) : CleanerOp → Heap × CleanerState
  | .missingOp _ => (h, st)
  | .imputeOp cols m =>
      (h ++ [imputeTable (heapGet h st.dfRef) cols m], { st with dfRef := h.length })
  | .detectOp cols t =>
      (h ++ [(detectOutliers (heapGet h st.dfRef) cols t).1], { st with dfRef := h.length })
  | .capOp ps t =>
      (h ++ [capOutliers t ps (heapGet h st.dfRef)], { st with dfCleanedRef := some h.length })

/-- A chained sequence of cleaner calls. -/
def runOps (h : Heap) (st : CleanerState) : List CleanerOp → Heap × CleanerState
  | [] => (h, st)
  | op :: rest => runOps (runOp h st op).1 (runOp h st op).2 rest

/-! ### Specification-side definitions

These follow the words of the spec/claims (not the code) and exist only to
be compared against the embedded code. -/

/-- `s` is the population standard deviation (`ddof = 0`, what
`scipy.stats.zscore` scales by) of the non-null part of `xs`. -/
def IsPopStd (xs : Col) (s : ℚ) : Prop :=
  0 ≤ s ∧ s ^ 2 = popVar (nonNull xs)

instance (xs : Col) (s : ℚ) : Decidable (IsPopStd xs s) :=
  inferInstanceAs (Decidable (_ ∧ _))

/-- Spec-side per-column outlier flags: "compute the population Z-score per
row using ONLY non-null values: `z = (x - mean(col)) / stddev(col)`"; a row
is flagged when `|z| > t`, which for `t ≥ 0` and nonzero variance is
`(x - mean)^2 * n > t^2 * sumSqDev` over the non-null values; null rows have
no Z-score and are not flagged. -/
def specNonNullZFlag (xs : Col) (t : ℚ) : List Bool :=
  let vs := nonNull xs
  xs.map (fun x =>
    match x with
    | some v => decide ((v - mean vs) ^ 2 * vs.length > t ^ 2 * sumSqDev vs)
    | none => false)

/-- Spec-side mode tie-break: "the first-encountered value among the tied
most-frequent non-null values of the column (in row order)". -/
def firstEncounteredMode (vs : List ℚ) : ℚ :=
  (vs.find? (fun v => vs.count v = maxCount vs)).getD 0

/-- The primary-metric mean of a summary row (0 when the metric is absent),
used to phrase the claimed ordering of the summary table. -/
def primaryMean (primary : String) (r : SummaryRow) : ℚ :=
  match r.stats.find? (fun p => p.1 = primary) with
  | some p => p.2.meanS
  | none => 0

/-- Spec-side ordering check: consecutive summary rows have non-increasing
primary-metric mean ("ordered by descending primary-metric mean"). -/
def specDescByPrimary (primary : String) : List SummaryRow → Bool
  | [] => true
  | [_] => true
  | r1 :: r2 :: rest =>
      decide (primaryMean primary r2 ≤ primaryMean primary r1) &&
      specDescByPrimary primary (r2 :: rest)

/-! ### Concrete data for witnesses and counterexamples -/

/-- A column holding `[0, 0, 0, 100, null]`: its non-null part has the
outlier 100, and the null makes `scipy.stats.zscore` propagate NaN. -/
def nanCol : Col := [some 0, some 0, some 0, some 100, none]

/-- A one-column table around `nanCol`. -/
def nanTable : Table := [("A", nanCol)]

/-- The column `[0, 0, 0, 10]`: sample variance 25 (std 5), population
variance 75/4 — a perfect-square sample variance with a value far enough
out to be capped at threshold 1. -/
def capCol : Col := [some 0, some 0, some 0, some 10]

/-- A one-column table around `capCol`. -/
def capTable : Table := [("A", capCol)]

/-- `capTable` after one capping pass at threshold 1 (std 5): the 10 is
clamped to `2.5 + 5 = 7.5`. -/
def capTableOnce : Table := [("A", [some 0, some 0, some 0, some (15/2)])]

/-- A table whose column lies inside its own capping bounds at threshold 3:
mean 1, sample std 1, bounds `[-2, 4]`. -/
def fixedTable : Table := [("A", [some 0, some 1, some 2])]

/-- A two-column table for the imputation witness. -/
def impTable : Table := [("A", [some 1, none, some 3]), ("B", [some 7, none])]

/-- The column `[5, 3, 5, 3, null]`: modes tied between 3 and 5; the
first-encountered tied mode is 5, the smallest is 3. -/
def modeCol : Col := [some 5, some 3, some 5, some 3, none]

/-- A one-column table around `modeCol`. -/
def modeTable : Table := [("A", modeCol)]

/-- A combined table where the later-appearing site "A" has the larger GHI
mean, so first-appearance order is not descending-mean order. -/
def combinedBA : CTable := [⟨"B", [("GHI", some 1)]⟩, ⟨"A", [("GHI", some 5)]⟩]

/-- A filesystem with two csv files of 1 and 2 rows. -/
def fsAB : FileSystem :=
  [("a.csv", [[("GHI", some 1)]]),
   ("b.csv", [[("GHI", some 2)], [("GHI", some 3)]])]

/-- A fresh synthesizer state: nothing loaded, nothing combined. -/
def st0 : SynthState := ⟨[], none⟩

/-! ## Helper lemmas -/

theorem getCol_updateCol_self (T : Table) (c : String) (f : Col → Col) :
    getCol (updateCol T c f) c = (getCol T c).map f := by
  induction T with
  | nil => rfl
  | cons p T ih =>
      by_cases h : p.1 = c
      · simp [updateCol, getCol, h]
      · simpa [updateCol, getCol, h] using ih

theorem getCol_updateCol_ne (T : Table) (c c' : String) (f : Col → Col) (h : c' ≠ c) :
    getCol (updateCol T c f) c' = getCol T c' := by
  induction T with
  | nil => rfl
  | cons p T ih =>
      by_cases hp : p.1 = c
      · have hp' : ¬ (p.1 = c') := fun hc => h (hc ▸ hp ▸ rfl)
        simpa [updateCol, getCol, hp, hp', h, Ne.symm h] using ih
      · by_cases hq : p.1 = c'
        · simp [updateCol, getCol, hp, hq, h, Ne.symm h]
        · simpa [updateCol, getCol, hp, hq, h, Ne.symm h] using ih

/-! ## C1 -/

/-- C1: FALSIFIED BY THE CODE (code bug).  The claim (and the spec, and the
discarded `dropna()` computation of data_cleaner.py line 140) demand the
population Z-scores of the NON-NULL values; the executed line 144 feeds the
full column to `scipy.stats.zscore`, whose NaN propagation makes every
comparison false.  On the column `[0, 0, 0, 100, null]` with threshold 1 the
non-null Z-score of the value 100 exceeds the threshold (so the spec flags
row 3) while `detect_outliers` flags no row at all.  (The variance of the
non-null values is nonzero, so the claim's nonzero-std case applies.) -/
theorem detect_outliers_null_column_unflagged :
    sumSqDev (nonNull nanCol) ≠ 0 ∧
    specNonNullZFlag nanCol 1 = [false, false, false, true, false] ∧
    (detectOutliers nanTable ["A"] 1).2 = [false, false, false, false, false] := by
  decide

/-! ## C2 -/

/-- C2: counterexample.  `cap_outliers` is not idempotent: on the single
column `[0, 0, 0, 10]` with `z_threshold = 1`, the first pass (sample std 5,
witnessed by `goodStds`) caps the 10 to 7.5, and a second pass — whose
statistics the code recomputes from the capped values (sample std 15/4) —
caps further, to 45/8. -/
theorem cap_outliers_not_idempotent :
    goodStds 1 [("A", 5)] capTable = true ∧
    capOutliers 1 [("A", 5)] capTable = capTableOnce ∧
    goodStds 1 [("A", 15/4)] capTableOnce = true ∧
    capOutliers 1 [("A", 15/4)] capTableOnce ≠ capTableOnce := by
  decide

/-! Auxiliary facts for characterizing when a capping pass is the identity. -/

theorem map_eq_self_iff_forall {α : Type} (l : List α) (f : α → α) :
    l.map f = l ↔ ∀ x ∈ l, f x = x := by
  induction l with
  | nil => simp
  | cons a r ih => simp [ih]

theorem clip_eq_self_iff (lo hi v : ℚ) (h : lo ≤ hi) :
    clip lo hi v = v ↔ lo ≤ v ∧ v ≤ hi := by
  constructor
  · intro hv
    exact ⟨hv ▸ le_min h (le_max_left lo v), hv ▸ min_le_left hi _⟩
  · rintro ⟨h1, h2⟩
    rw [clip, max_eq_right h1, min_eq_right h2]

theorem mem_nonNull (xs : Col) (v : ℚ) : v ∈ nonNull xs ↔ some v ∈ xs := by
  simp [nonNull, List.mem_filterMap]

theorem capColWith_eq_self_iff (xs : Col) (s t : ℚ) (hts : 0 ≤ t * s) :
    capColWith xs s t = xs ↔
      (nonNull xs).length ≤ 1 ∨
      ∀ v ∈ nonNull xs,
        mean (nonNull xs) - t * s ≤ v ∧ v ≤ mean (nonNull xs) + t * s := by
  by_cases h1 : (nonNull xs).length ≤ 1
  · simp [capColWith, h1]
  · have hlohi : mean (nonNull xs) - t * s ≤ mean (nonNull xs) + t * s := by linarith
    rw [capColWith]
    simp only [h1, if_false]
    rw [map_eq_self_iff_forall]
    constructor
    · intro hall
      refine Or.inr fun v hv => ?_
      have := hall (some v) ((mem_nonNull xs v).mp hv)
      simp only [Option.map_some'] at this
      exact (clip_eq_self_iff _ _ v hlohi).mp (by injection this)
    · rintro (habs | hin) x hx
      · exact habs.elim
      · cases x with
        | none => rfl
        | some v =>
            have := hin v ((mem_nonNull xs v).mpr hx)
            simp only [Option.map_some']
            rw [(clip_eq_self_iff _ _ v hlohi).mpr this]

theorem capOutliers_eq_map (t : ℚ) :
    ∀ (ps : List (String × ℚ)) (U : Table), capOutliers t ps U = U.map (capEntry t ps) := by
  intro ps
  induction ps with
  | nil =>
      intro U
      rw [show capOutliers t [] U = U from rfl]
      exact ((map_eq_self_iff_forall U (capEntry t [])).mpr (fun x _ => rfl)).symm
  | cons cs rest ih =>
      intro U
      obtain ⟨c, s⟩ := cs
      rw [show capOutliers t ((c, s) :: rest) U
          = capOutliers t rest (updateCol U c (fun xs => capColWith xs s t)) from rfl,
        ih, updateCol, List.map_map]
      rfl

theorem capEntry_eq_self_of_not_mem (t : ℚ) :
    ∀ (ps : List (String × ℚ)) (p : String × Col),
      p.1 ∉ ps.map Prod.fst → capEntry t ps p = p := by
  intro ps
  induction ps with
  | nil => intro p _; rfl
  | cons cs rest ih =>
      intro p hp
      have hne : ¬ (p.1 = cs.1) := fun hc => hp (by simp [hc])
      rw [show capEntry t (cs :: rest) p
          = capEntry t rest (if p.1 = cs.1 then (p.1, capColWith p.2 cs.2 t) else p) from rfl,
        if_neg hne]
      exact ih p (fun hm => hp (by simp [hm]))

theorem capEntry_eq_self_iff (t : ℚ) :
    ∀ (ps : List (String × ℚ)) (p : String × Col), (ps.map Prod.fst).Nodup →
      (capEntry t ps p = p ↔ ∀ cs ∈ ps, p.1 = cs.1 → capColWith p.2 cs.2 t = p.2) := by
  intro ps
  induction ps with
  | nil => intro p _; simp [capEntry]
  | cons cs rest ih =>
      intro p hnd
      obtain ⟨hout, hrest⟩ := List.nodup_cons.mp (by rw [List.map_cons] at hnd; exact hnd)
      by_cases hp : p.1 = cs.1
      · have hstep : capEntry t (cs :: rest) p = (p.1, capColWith p.2 cs.2 t) := by
          rw [show capEntry t (cs :: rest) p
              = capEntry t rest (if p.1 = cs.1 then (p.1, capColWith p.2 cs.2 t) else p)
            from rfl, if_pos hp]
          exact capEntry_eq_self_of_not_mem t rest _ (by simpa [hp] using hout)
        rw [hstep]
        constructor
        · intro he
          intro cs' hcs' hpc
          rcases List.mem_cons.mp hcs' with rfl | hmem
          · have : capColWith p.2 cs'.2 t = p.2 := congrArg Prod.snd he
            exact this
          · exact absurd (hpc ▸ (List.mem_map_of_mem Prod.fst hmem)) (hp ▸ hout)
        · intro hall
          have : capColWith p.2 cs.2 t = p.2 := hall cs (List.mem_cons_self cs rest) hp
          rw [this]
      · have hstep : capEntry t (cs :: rest) p = capEntry t rest p := by
          rw [show capEntry t (cs :: rest) p
              = capEntry t rest (if p.1 = cs.1 then (p.1, capColWith p.2 cs.2 t) else p)
            from rfl, if_neg hp]
        rw [hstep, ih p hrest]
        constructor
        · intro hall cs' hcs' hpc
          rcases List.mem_cons.mp hcs' with rfl | hmem
          · exact absurd hpc hp
          · exact hall cs' hmem hpc
        · intro hall cs' hcs' hpc
          exact hall cs' (List.mem_cons_of_mem cs hcs') hpc

/-- C2 amended: `cap_outliers` is not idempotent — it recomputes mean and
std from the already-capped values, so a second application with the same
threshold can cap further (see `cap_outliers_not_idempotent`), and a first
application that did change the table can still land on a fixed point
(threshold 0 collapses a column to its constant mean).  What holds instead
is the exact characterization of when one capping pass changes nothing:
for a list of distinct column names with `0 ≤ z_threshold·std` each,
`cap_outliers` leaves the table unchanged if and only if every listed
column of the table either has fewer than two non-null values or all its
non-null values already lie within
`[mean - z_threshold·std, mean + z_threshold·std]` of its current values. -/
theorem cap_outliers_fixed_iff (t : ℚ) (ps : List (String × ℚ)) (T : Table)
    (hts : ∀ cs ∈ ps, 0 ≤ t * cs.2) (hnd : (ps.map Prod.fst).Nodup) :
    capOutliers t ps T = T ↔
      ∀ cs ∈ ps, ∀ p ∈ T, p.1 = cs.1 →
        (nonNull p.2).length ≤ 1 ∨
        ∀ v ∈ nonNull p.2,
          mean (nonNull p.2) - t * cs.2 ≤ v ∧ v ≤ mean (nonNull p.2) + t * cs.2 := by
  rw [capOutliers_eq_map, map_eq_self_iff_forall]
  constructor
  · intro hall cs hcs p hpT hpc
    have h1 := ((capEntry_eq_self_iff t ps p hnd).mp (hall p hpT)) cs hcs hpc
    exact (capColWith_eq_self_iff p.2 cs.2 t (hts cs hcs)).mp h1
  · intro hall p hpT
    rw [capEntry_eq_self_iff t ps p hnd]
    intro cs hcs hpc
    exact (capColWith_eq_self_iff p.2 cs.2 t (hts cs hcs)).mpr (hall cs hcs p hpT hpc)

/-- Witness for `cap_outliers_fixed_iff` at `fixedTable` (column
`[0, 1, 2]`, std 1, threshold 3): the bounds `[-2, 4]` contain every value,
so the backward direction yields that the capping pass changes nothing. -/
theorem cap_outliers_fixed_iff_witness :
    capOutliers 3 [("A", 1)] fixedTable = fixedTable :=
  (cap_outliers_fixed_iff 3 [("A", 1)] fixedTable (by decide) (by decide)).mpr (by decide)

/-! ## C3 -/

/-- C3: counterexample.  On the column `[0, 0, 0, 10]` the standard
deviation that determines the capping bounds is the sample one (`ddof = 1`):
`IsSampleStd` holds of 5.  The standard deviation scaling the detection
Z-scores is the population one (`ddof = 0`): 5 is not it, and the two
variances differ (75/4 vs 25) — so detection and capping do NOT operate on
identical column statistics even inside one `clean()` call. -/
theorem detection_and_capping_stds_differ :
    IsSampleStd capCol 5 ∧ ¬ IsPopStd capCol 5 ∧
    popVar (nonNull capCol) ≠ sampleVar (nonNull capCol) := by
  decide

/-! ## C9 -/

/-- C9: counterexample.  On the column `[5, 3, 5, 3, null]` the tied
most-frequent values are {3, 5}; the first-encountered one (the claim's
stated tie-break) is 5, but pandas `mode()` returns the ties sorted
ascending, so `mode()[0]` — the fill value actually used — is 3. -/
theorem mode_fill_not_first_encountered :
    imputeTable modeTable ["A"] .modeM = [("A", [some 5, some 3, some 5, some 3, some 3])] ∧
    modeFill modeCol = 3 ∧
    firstEncounteredMode (nonNull modeCol) = 5 ∧
    modeFill modeCol ≠ firstEncounteredMode (nonNull modeCol) := by
  decide

/-! ## C4 -/

/-- C4: CONFIRMED.  For a table `T` and a column `C` of `T` with at least
one non-null value, `impute_missing_values([C], 'median')` (i) leaves every
other column exactly as it was, (ii) replaces each null cell of `C` by the
median of the non-null values of `C` while keeping the non-null cells, and
(iii) the resulting column `C` has zero nulls. -/
theorem impute_median_fills (T : Table) (C : String) (xs : Col)
    (hC : getCol T C = some xs) (hnn : nonNull xs ≠ []) :
    (∀ c, c ≠ C → getCol (imputeTable T [C] .medianM) c = getCol T c) ∧
    getCol (imputeTable T [C] .medianM) C
      = some (xs.map (fun x => some (x.getD (median (nonNull xs))))) ∧
    ∀ ys, getCol (imputeTable T [C] .medianM) C = some ys → hasNull ys = false := by
  have h1 : imputeTable T [C] .medianM = updateCol T C (fun v => imputeCol v .medianM) := rfl
  have h2 : imputeCol xs .medianM = xs.map (fun x => some (x.getD (median (nonNull xs)))) := by
    simp [imputeCol, fillValue, hnn]
  refine ⟨fun c hc => by rw [h1, getCol_updateCol_ne T C c _ hc], ?_, ?_⟩
  · rw [h1, getCol_updateCol_self, hC, Option.map_some', h2]
  · intro ys hys
    rw [h1, getCol_updateCol_self, hC, Option.map_some', h2] at hys
    cases hys
    simp [hasNull, List.any_map, Function.comp]

/-- Witness for `impute_median_fills` on `impTable`: column B untouched,
column A's null filled with the median 2 of `[1, 3]`. -/
theorem impute_median_fills_witness :
    getCol (imputeTable impTable ["A"] ImputeMethod.medianM) "B" = getCol impTable "B" ∧
    getCol (imputeTable impTable ["A"] ImputeMethod.medianM) "A"
      = some [some 1, some 2, some 3] :=
  ⟨(impute_median_fills impTable "A" [some 1, none, some 3] (by decide) (by decide)).1
      "B" (by decide),
   ((impute_median_fills impTable "A" [some 1, none, some 3] (by decide) (by decide)).2.1).trans
      (by decide)⟩

/-- C3 amended: within one `clean()` call detection and capping do read the
same column data (impute runs first, caps run right after detection), and
both center on the same mean, but the standard deviations differ
systematically: detection scales by the population std (`ddof = 0`,
`scipy.stats.zscore`) and capping by the sample std (`ddof = 1`,
`Series.std()`).  For a column of `n ≥ 2` values the squared deviations
relate by `sampleVar * (n - 1) = popVar * n`, the population variance never
exceeds the sample variance, and they agree exactly when the column is
constant (zero sum of squared deviations). -/
theorem detect_cap_variance_relation (vs : List ℚ) (h2 : 2 ≤ vs.length) :
    sampleVar vs * ((vs.length : ℚ) - 1) = popVar vs * (vs.length : ℚ) ∧
    popVar vs ≤ sampleVar vs ∧
    (popVar vs = sampleVar vs ↔ sumSqDev vs = 0) := by
  have hS : 0 ≤ sumSqDev vs := by
    apply List.sum_nonneg
    intro x hx
    obtain ⟨v, hv, rfl⟩ := List.mem_map.mp hx
    positivity
  have hnq : (2 : ℚ) ≤ (vs.length : ℚ) := by exact_mod_cast h2
  have hne : ¬ (vs.length ≤ 1) := by omega
  have hd1 : (0 : ℚ) < (vs.length : ℚ) - 1 := by linarith
  have hd0 : (0 : ℚ) < (vs.length : ℚ) := by linarith
  have hsv : sampleVar vs = sumSqDev vs / ((vs.length : ℚ) - 1) := by
    simp [sampleVar, hne]
  refine ⟨?_, ?_, ?_, ?_⟩
  · rw [hsv, popVar, div_mul_cancel₀ _ (ne_of_gt hd1), div_mul_cancel₀ _ (ne_of_gt hd0)]
  · rw [hsv, popVar]
    gcongr
    linarith
  · intro h
    rw [hsv, popVar] at h
    rw [div_eq_div_iff (ne_of_gt hd0) (ne_of_gt hd1)] at h
    nlinarith [h]
  · intro h
    rw [hsv, popVar, h]
    simp

/-- Witness for `detect_cap_variance_relation` on the column `[0, 0, 0, 10]`
(population variance 75/4, sample variance 25). -/
theorem detect_cap_variance_relation_witness :
    sampleVar [0, 0, 0, 10] * (((4 : Nat) : ℚ) - 1) = popVar [0, 0, 0, 10] * ((4 : Nat) : ℚ) ∧
    popVar [0, 0, 0, 10] ≤ sampleVar [0, 0, 0, 10] ∧
    (popVar [0, 0, 0, 10] = sampleVar [0, 0, 0, 10] ↔ sumSqDev [0, 0, 0, 10] = 0) :=
  detect_cap_variance_relation [0, 0, 0, 10] (by decide)

/-! Auxiliary facts about `maxCount`, `modeCandidates` and `listMin`. -/

theorem le_foldr_max (l : List ℕ) (x : ℕ) (hx : x ∈ l) : x ≤ l.foldr max 0 := by
  induction l with
  | nil => cases hx
  | cons a r ih =>
      rcases List.mem_cons.mp hx with rfl | h
      · exact le_max_left _ _
      · exact le_trans (ih h) (le_max_right _ _)

theorem foldr_max_mem (l : List ℕ) (h : l.foldr max 0 ≠ 0) : l.foldr max 0 ∈ l := by
  induction l with
  | nil => simp at h
  | cons a r ih =>
      rcases max_choice a (r.foldr max 0) with hm | hm
      · exact List.mem_cons.mpr (Or.inl (by simpa using hm))
      · have hr : r.foldr max 0 ≠ 0 := by
          simpa [List.foldr_cons, hm] using h
        exact List.mem_cons.mpr (Or.inr (by simpa [List.foldr_cons, hm] using ih hr))

theorem maxCount_ne_zero (vs : List ℚ) (h : vs ≠ []) : maxCount vs ≠ 0 := by
  obtain ⟨v, r, rfl⟩ : ∃ v r, vs = v :: r := by
    cases vs with
    | nil => exact absurd rfl h
    | cons v r => exact ⟨v, r, rfl⟩
  have h1 : 1 ≤ (v :: r).count v := by simp [List.count_cons]
  have h2 : (v :: r).count v ≤ maxCount (v :: r) :=
    le_foldr_max _ _ (List.mem_map_of_mem _ (List.mem_cons_self v r))
  omega

theorem modeCandidates_ne_nil (vs : List ℚ) (h : vs ≠ []) : modeCandidates vs ≠ [] := by
  have hmem : maxCount vs ∈ vs.map (fun v => vs.count v) :=
    foldr_max_mem _ (maxCount_ne_zero vs h)
  obtain ⟨v, hv, hcount⟩ := List.mem_map.mp hmem
  have : v ∈ modeCandidates vs := List.mem_filter.mpr ⟨hv, by simpa using hcount⟩
  exact List.ne_nil_of_mem this

theorem listMin_mem : ∀ l : List ℚ, l ≠ [] → listMin l ∈ l := by
  intro l
  induction l with
  | nil => intro h; exact absurd rfl h
  | cons a r ih =>
      intro _
      cases r with
      | nil => simp [listMin]
      | cons b r2 =>
          rcases min_choice a (listMin (b :: r2)) with hm | hm
          · simp [listMin, hm]
          · exact List.mem_cons.mpr (Or.inr (by
              rw [show listMin (a :: b :: r2) = min a (listMin (b :: r2)) from rfl, hm]
              exact ih (List.cons_ne_nil b r2)))

theorem listMin_le : ∀ l : List ℚ, ∀ x ∈ l, listMin l ≤ x := by
  intro l
  induction l with
  | nil => intro x hx; cases hx
  | cons a r ih =>
      intro x hx
      cases r with
      | nil =>
          rcases List.mem_cons.mp hx with rfl | h
          · simp [listMin]
          · cases h
      | cons b r2 =>
          rcases List.mem_cons.mp hx with rfl | h
          · exact min_le_left _ _
          · exact le_trans (min_le_right _ _) (ih x h)

/-- C9 amended: with method 'mode' the fill value is the SMALLEST of the
tied most-frequent non-null values — pandas `mode()` returns the ties
sorted ascending and the code takes element `[0]` — and for a column with
zero non-null values the fill value degrades to 0. -/
theorem mode_fill_smallest_tied (xs : Col) (hne : nonNull xs ≠ []) :
    modeFill xs ∈ nonNull xs ∧
    (nonNull xs).count (modeFill xs) = maxCount (nonNull xs) ∧
    (∀ v ∈ nonNull xs, (nonNull xs).count v = maxCount (nonNull xs) → modeFill xs ≤ v) ∧
    ∀ ys : Col, nonNull ys = [] → modeFill ys = 0 := by
  have hdef : modeFill xs = listMin (modeCandidates (nonNull xs)) := by
    simp [modeFill, hne]
  have hcand : modeFill xs ∈ modeCandidates (nonNull xs) := by
    rw [hdef]; exact listMin_mem _ (modeCandidates_ne_nil _ hne)
  have hmem := List.mem_filter.mp hcand
  refine ⟨hmem.1, by simpa using hmem.2, ?_, ?_⟩
  · intro v hv hcnt
    rw [hdef]
    exact listMin_le _ v (List.mem_filter.mpr ⟨hv, by simpa using hcnt⟩)
  · intro ys hys
    simp [modeFill, hys]

/-- Witness for `mode_fill_smallest_tied` on the two-value column
`[5, 3]` (both values occur once; the smaller, 3, is the fill). -/
theorem mode_fill_smallest_tied_witness :
    modeFill [some 5, some 3] ∈ nonNull [some 5, some 3] ∧
    modeFill [some 5, some 3] = 3 :=
  ⟨(mode_fill_smallest_tied [some 5, some 3] (by decide)).1, by decide⟩

/-! Auxiliary facts for the outlier-flag loop. -/

theorem zscoreMask_length (xs : Col) (t : ℚ) : (zscoreMask xs t).length = xs.length := by
  unfold zscoreMask
  by_cases h1 : hasNull xs
  · simp [h1]
  · by_cases h2 : sumSqDev (nonNull xs) = 0
    · simp [h1, h2]
    · simp [h1, h2]

theorem getCol_mem (T : Table) (c : String) (xs : Col) (h : getCol T c = some xs) :
    (c, xs) ∈ T := by
  induction T with
  | nil => cases h
  | cons p T ih =>
      by_cases hp : p.1 = c
      · rw [getCol, if_pos hp] at h
        cases h
        exact List.mem_cons.mpr (Or.inl (by rw [← hp]))
      · rw [getCol, if_neg hp] at h
        exact List.mem_cons_of_mem _ (ih h)

theorem orMaskStep_length (T : Table) (t : ℚ) (hre : Rect T) (flags : List Bool) (c : String)
    (hf : flags.length = nrows T) : (orMaskStep T t flags c).length = nrows T := by
  unfold orMaskStep
  cases h : getCol T c with
  | none => exact hf
  | some xs =>
      have hx : xs.length = nrows T := hre (c, xs) (getCol_mem T c xs h)
      simp [List.length_zipWith, hf, zscoreMask_length, hx]

theorem detectFlags_fold (T : Table) (t : ℚ) (hre : Rect T) :
    ∀ (cols : List String) (init : List Bool), init.length = nrows T →
      (cols.foldl (orMaskStep T t) init).length = nrows T ∧
      ∀ i, i < nrows T →
        ((cols.foldl (orMaskStep T t) init).getD i false = true ↔
          init.getD i false = true ∨
            ∃ c ∈ cols, ∃ xs, getCol T c = some xs ∧ (zscoreMask xs t).getD i false = true) := by
  intro cols
  induction cols with
  | nil =>
      intro init hinit
      exact ⟨hinit, fun i _ => by simp⟩
  | cons c rest ih =>
      intro init hinit
      have hstep : (orMaskStep T t init c).length = nrows T :=
        orMaskStep_length T t hre init c hinit
      obtain ⟨hlen, hiff⟩ := ih (orMaskStep T t init c) hstep
      refine ⟨hlen, fun i hi => ?_⟩
      rw [List.foldl_cons, hiff i hi]
      cases h : getCol T c with
      | none =>
          have hsame : orMaskStep T t init c = init := by
            unfold orMaskStep; rw [h]
          rw [hsame]
          constructor
          · rintro (hl | ⟨c', hc', xs, hxs, hflag⟩)
            · exact Or.inl hl
            · exact Or.inr ⟨c', List.mem_cons_of_mem _ hc', xs, hxs, hflag⟩
          · rintro (hl | ⟨c', hc', xs, hxs, hflag⟩)
            · exact Or.inl hl
            · rcases List.mem_cons.mp hc' with rfl | hc''
              · rw [h] at hxs; cases hxs
              · exact Or.inr ⟨c', hc'', xs, hxs, hflag⟩
      | some xs =>
          have hx : xs.length = nrows T := hre (c, xs) (getCol_mem T c xs h)
          have hzl : i < (zscoreMask xs t).length := by rw [zscoreMask_length, hx]; exact hi
          have hil : i < init.length := by rw [hinit]; exact hi
          have hstepD : (orMaskStep T t init c).getD i false
              = (init.getD i false || (zscoreMask xs t).getD i false) := by
            unfold orMaskStep
            rw [h]
            rw [List.getD_eq_getElem _ _ (by simpa [List.length_zipWith, hinit,
              zscoreMask_length, hx] using hi)]
            rw [List.getElem_zipWith]
            rw [List.getD_eq_getElem _ _ hil, List.getD_eq_getElem _ _ hzl]
          rw [hstepD]
          constructor
          · rintro (hor | ⟨c', hc', ys, hys, hflag⟩)
            · rcases Bool.or_eq_true_iff.mp hor with hl | hr
              · exact Or.inl hl
              · exact Or.inr ⟨c, List.mem_cons_self c rest, xs, h, hr⟩
            · exact Or.inr ⟨c', List.mem_cons_of_mem _ hc', ys, hys, hflag⟩
          · rintro (hl | ⟨c', hc', ys, hys, hflag⟩)
            · exact Or.inl (Bool.or_eq_true_iff.mpr (Or.inl hl))
            · rcases List.mem_cons.mp hc' with rfl | hc''
              · rw [h] at hys
                cases hys
                exact Or.inl (Bool.or_eq_true_iff.mpr (Or.inr hflag))
              · exact Or.inr ⟨c', hc'', ys, hys, hflag⟩

/-! ## C5 -/

/-- C5: CONFIRMED.  The flag column returned by `detect_outliers` has one
boolean per row, the data columns are returned unchanged, a row's flag is
true exactly when at least one of the processed (present) columns' masks
flags it — flags accumulate by logical OR over the column loop — and a flag
set while processing a prefix of the column list survives the remaining
columns. -/
theorem detect_outliers_flags_or (T : Table) (cols : List String) (t : ℚ) (hre : Rect T) :
    (detectOutliers T cols t).2.length = nrows T ∧
    (detectOutliers T cols t).1 = T ∧
    (∀ i, i < nrows T →
      ((detectOutliers T cols t).2.getD i false = true ↔
        ∃ c ∈ cols, ∃ xs, getCol T c = some xs ∧ (zscoreMask xs t).getD i false = true)) ∧
    ∀ pre suf i, cols = pre ++ suf → i < nrows T →
      (detectFlags T pre t).getD i false = true →
      (detectFlags T cols t).getD i false = true := by
  have hrep : (List.replicate (nrows T) false).length = nrows T := List.length_replicate _ _
  obtain ⟨hlen, hiff⟩ := detectFlags_fold T t hre cols (List.replicate (nrows T) false) hrep
  have hrepD : ∀ i, (List.replicate (nrows T) false).getD i false = false := by
    intro i
    rcases lt_or_ge i (nrows T) with hi | hi
    · rw [List.getD_eq_getElem _ _ (by simpa using hi), List.getElem_replicate]
    · exact List.getD_eq_default _ _ (by simpa using hi)
  refine ⟨hlen, rfl, fun i hi => ?_, fun pre suf i hsplit hi hpre => ?_⟩
  · rw [show (detectOutliers T cols t).2 = detectFlags T cols t from rfl]
    unfold detectFlags
    rw [hiff i hi, hrepD i]
    simp
  · obtain ⟨_, hiffpre⟩ := detectFlags_fold T t hre pre (List.replicate (nrows T) false) hrep
    have hm := (hiffpre i hi).mp hpre
    rw [hrepD i] at hm
    rcases hm with hm | ⟨c, hc, xs, hxs, hflag⟩
    · cases hm
    · unfold detectFlags
      rw [hiff i hi]
      exact Or.inr ⟨c, hsplit ▸ List.mem_append_left suf hc, xs, hxs, hflag⟩

/-- Witness for `detect_outliers_flags_or` on the rectangular table
`capTable` (single column `[0, 0, 0, 10]`, threshold 1): row 3's flag is
equivalent to column A's mask flagging row 3. -/
theorem detect_outliers_flags_or_witness :
    (detectOutliers capTable ["A"] 1).2.length = nrows capTable ∧
    ((detectOutliers capTable ["A"] 1).2.getD 3 false = true ↔
      ∃ c ∈ ["A"], ∃ xs, getCol capTable c = some xs ∧ (zscoreMask xs 1).getD 3 false = true) :=
  ⟨(detect_outliers_flags_or capTable ["A"] 1 (by decide)).1,
   (detect_outliers_flags_or capTable ["A"] 1 (by decide)).2.2.1 3 (by decide)⟩

/-! ## C6 -/

/-- C6: counterexample.  `get_summary_statistics` iterates `unique()` —
first-appearance order — and never sorts: on a combined table whose
first-seen site "B" has GHI mean 1 and later site "A" has GHI mean 5, the
returned rows are [B, A], which is NOT descending by primary-metric mean
(the sorting described by the claim exists only in the dashboard's
`create_summary_table`). -/
theorem summary_statistics_not_sorted :
    getSummaryStatistics (some combinedBA) ["GHI"]
      = .ok [⟨"B", [("GHI", ⟨1, 1, 0, 1, 1⟩)]⟩, ⟨"A", [("GHI", ⟨5, 5, 0, 5, 5⟩)]⟩] ∧
    specDescByPrimary "GHI"
      [⟨"B", [("GHI", ⟨1, 1, 0, 1, 1⟩)]⟩, ⟨"A", [("GHI", ⟨5, 5, 0, 5, 5⟩)]⟩] = false := by
  decide

/-- C6 amended: `get_summary_statistics` raises when called before
aggregation; otherwise it returns one row per site tag in order of FIRST
APPEARANCE in the aggregated table (pandas `unique()`), not sorted by
descending primary-metric mean, and each listed per-column entry is the
mean/median/variance/min/max aggregate of that site's rows for a requested
column present in the data. -/
theorem summary_statistics_appearance_order (combined : Option CTable) (cols : List String) :
    (combined = none → getSummaryStatistics combined cols = .error .notReady) ∧
    ∀ rows, combined = some rows →
      ∃ out, getSummaryStatistics combined cols = .ok out ∧
        out.map (fun r => r.country) = uniqueFirst (rows.map (fun r => r.country)) ∧
        ∀ sr ∈ out, ∀ p ∈ sr.stats,
          p.1 ∈ cols ∧ colPresent rows p.1 = true ∧
          p.2 = colStats (colValues (rows.filter (fun r => r.country = sr.country)) p.1) := by
  constructor
  · intro h
    rw [h]
    rfl
  · intro rows h
    subst h
    refine ⟨_, rfl, ?_, ?_⟩
    · rw [List.map_map]
      have : ((fun r => r.country) ∘ summaryRow rows cols) = id := by
        funext ctry
        rfl
      rw [this, List.map_id]
    · intro sr hsr p hp
      obtain ⟨ctry, _, rfl⟩ := List.mem_map.mp hsr
      obtain ⟨c, hc, rfl⟩ := List.mem_map.mp hp
      have hcf := List.mem_filter.mp hc
      exact ⟨hcf.1, by simpa using hcf.2, rfl⟩

/-- Witness for `summary_statistics_appearance_order` at the concrete
combined table `combinedBA`. -/
theorem summary_statistics_appearance_order_witness :
    ∃ out, getSummaryStatistics (some combinedBA) ["GHI"] = .ok out ∧
      out.map (fun r => r.country) = uniqueFirst (combinedBA.map (fun r => r.country)) ∧
      ∀ sr ∈ out, ∀ p ∈ sr.stats,
        p.1 ∈ ["GHI"] ∧ colPresent combinedBA p.1 = true ∧
        p.2 = colStats (colValues (combinedBA.filter (fun r => r.country = sr.country)) p.1) :=
  (summary_statistics_appearance_order (some combinedBA) ["GHI"]).2 combinedBA rfl

/-! Auxiliary facts about the aggregation loop. -/

theorem aggregateGo_missing (fs : FileSystem) :
    ∀ (mapping : List (String × String)) (st : SynthState) (acc : List CTable),
      (∃ cp ∈ mapping, readCsv fs cp.2 = none) →
      (∃ p, (aggregateGo fs mapping st acc).2 = .error (.notFound p) ∧ readCsv fs p = none) ∧
      (aggregateGo fs mapping st acc).1.combinedData = st.combinedData := by
  intro mapping
  induction mapping with
  | nil =>
      intro st acc h
      obtain ⟨cp, hcp, _⟩ := h
      cases hcp
  | cons cp rest ih =>
      intro st acc h
      obtain ⟨c, p⟩ := cp
      cases hr : readCsv fs p with
      | none =>
          have hrun : aggregateGo fs ((c, p) :: rest) st acc = (st, .error (.notFound p)) := by
            simp [aggregateGo, loadCountryData, hr]
          rw [hrun]
          exact ⟨⟨p, rfl, hr⟩, rfl⟩
      | some rows =>
          have hrun : aggregateGo fs ((c, p) :: rest) st acc
              = aggregateGo fs rest
                  { st with countriesData := setEntry st.countriesData c (tagRows c rows) }
                  (acc ++ [tagRows c rows]) := by
            simp [aggregateGo, loadCountryData, hr]
          have hrest : ∃ cp ∈ rest, readCsv fs cp.2 = none := by
            obtain ⟨cp', hcp', hnone⟩ := h
            rcases List.mem_cons.mp hcp' with rfl | hmem
            · rw [hr] at hnone; cases hnone
            · exact ⟨cp', hmem, hnone⟩
          obtain ⟨hex, hcomb⟩ := ih _ _ hrest
          rw [hrun]
          exact ⟨hex, hcomb⟩

theorem aggregateGo_ok (fs : FileSystem) :
    ∀ (mapping : List (String × String)) (st : SynthState) (acc : List CTable),
      (∀ cp ∈ mapping, (readCsv fs cp.2).isSome) →
      (aggregateGo fs mapping st acc).2
        = .ok (acc.flatten
            ++ (mapping.map (fun cp => tagRows cp.1 ((readCsv fs cp.2).getD []))).flatten) ∧
      (aggregateGo fs mapping st acc).1.combinedData
        = some (acc.flatten
            ++ (mapping.map (fun cp => tagRows cp.1 ((readCsv fs cp.2).getD []))).flatten) := by
  intro mapping
  induction mapping with
  | nil =>
      intro st acc _
      simp [aggregateGo]
  | cons cp rest ih =>
      intro st acc h
      obtain ⟨c, p⟩ := cp
      obtain ⟨rows, hr⟩ :=
        Option.isSome_iff_exists.mp (h (c, p) (List.mem_cons_self _ _))
      have hrun : aggregateGo fs ((c, p) :: rest) st acc
          = aggregateGo fs rest
              { st with countriesData := setEntry st.countriesData c (tagRows c rows) }
              (acc ++ [tagRows c rows]) := by
        simp [aggregateGo, loadCountryData, hr]
      obtain ⟨h1, h2⟩ := ih
        { st with countriesData := setEntry st.countriesData c (tagRows c rows) }
        (acc ++ [tagRows c rows])
        (fun cp' hcp' => h cp' (List.mem_cons_of_mem _ hcp'))
      rw [hrun, h1, h2]
      constructor
      · congr 1
        simp [hr, List.flatten_append, List.flatten_cons, List.append_assoc]
      · congr 1
        simp [hr, List.flatten_append, List.flatten_cons, List.append_assoc]

/-! ## C7 -/

/-- C7: CONFIRMED.  When any listed path is missing, `aggregate_all_countries`
raises `FileNotFoundError` (from the first missing path's `pd.read_csv`)
and the synthesizer's `combined_data` is exactly what it was before the
call — the combined table is assigned only after the whole loading loop, so
no partial aggregate is produced. -/
theorem aggregate_missing_path_aborts (fs : FileSystem) (st : SynthState)
    (mapping : List (String × String))
    (h : ∃ cp ∈ mapping, readCsv fs cp.2 = none) :
    (∃ p, (aggregateAllCountries fs st mapping).2 = .error (.notFound p) ∧
      readCsv fs p = none) ∧
    (aggregateAllCountries fs st mapping).1.combinedData = st.combinedData :=
  aggregateGo_missing fs mapping st [] h

/-- Witness for `aggregate_missing_path_aborts`: a mapping whose second
path `missing.csv` is absent from `fsAB`, starting from the fresh state. -/
theorem aggregate_missing_path_aborts_witness :
    (∃ p, (aggregateAllCountries fsAB st0 [("A", "a.csv"), ("B", "missing.csv")]).2
        = .error (.notFound p) ∧ readCsv fsAB p = none) ∧
    (aggregateAllCountries fsAB st0 [("A", "a.csv"), ("B", "missing.csv")]).1.combinedData
      = st0.combinedData :=
  aggregate_missing_path_aborts fsAB st0 [("A", "a.csv"), ("B", "missing.csv")] (by decide)

/-! ## C8 -/

/-- C8: CONFIRMED.  When every listed path exists, `aggregate_all_countries`
returns (and stores as `combined_data`) a table whose row count is the sum
of the input files' row counts, and every row of it is some source row
tagged with exactly the site name of the file it came from. -/
theorem aggregate_row_counts_and_tags (fs : FileSystem) (st : SynthState)
    (mapping : List (String × String))
    (h : ∀ cp ∈ mapping, (readCsv fs cp.2).isSome) :
    ∃ T, (aggregateAllCountries fs st mapping).2 = .ok T ∧
      (aggregateAllCountries fs st mapping).1.combinedData = some T ∧
      T.length = (mapping.map (fun cp => ((readCsv fs cp.2).getD []).length)).sum ∧
      ∀ r ∈ T, ∃ cp ∈ mapping, ∃ d ∈ (readCsv fs cp.2).getD [], r = ⟨cp.1, d⟩ := by
  obtain ⟨h1, h2⟩ := aggregateGo_ok fs mapping st [] h
  refine ⟨(mapping.map (fun cp => tagRows cp.1 ((readCsv fs cp.2).getD []))).flatten,
    by simpa using h1, by simpa using h2, ?_, ?_⟩
  · rw [List.length_flatten, List.map_map]
    congr 1
    apply List.map_congr_left
    intro cp _
    simp [tagRows]
  · intro r hr
    obtain ⟨l, hl, hrl⟩ := List.mem_flatten.mp hr
    obtain ⟨cp, hcp, rfl⟩ := List.mem_map.mp hl
    obtain ⟨d, hd, rfl⟩ := List.mem_map.mp hrl
    exact ⟨cp, hcp, d, hd, rfl⟩

/-- Witness for `aggregate_row_counts_and_tags`: both paths of the mapping
exist in `fsAB` (1-row and 2-row files). -/
theorem aggregate_row_counts_and_tags_witness :
    ∃ T, (aggregateAllCountries fsAB st0 [("A", "a.csv"), ("B", "b.csv")]).2 = .ok T ∧
      (aggregateAllCountries fsAB st0 [("A", "a.csv"), ("B", "b.csv")]).1.combinedData
        = some T ∧
      T.length = ([("A", "a.csv"), ("B", "b.csv")].map
        (fun cp => ((readCsv fsAB cp.2).getD []).length)).sum ∧
      ∀ r ∈ T, ∃ cp ∈ [("A", "a.csv"), ("B", "b.csv")],
        ∃ d ∈ (readCsv fsAB cp.2).getD [], r = ⟨cp.1, d⟩ :=
  aggregate_row_counts_and_tags fsAB st0 [("A", "a.csv"), ("B", "b.csv")] (by decide)

/-! Auxiliary facts about the cleaner's heap effects. -/

theorem runOps_extends (ops : List CleanerOp) :
    ∀ (h : Heap) (st : CleanerState), ∃ tl, (runOps h st ops).1 = h ++ tl := by
  induction ops with
  | nil =>
      intro h st
      exact ⟨[], by simp [runOps]⟩
  | cons op rest ih =>
      intro h st
      obtain ⟨tl2, h2⟩ := ih (runOp h st op).1 (runOp h st op).2
      have hop : ∃ tl1, (runOp h st op).1 = h ++ tl1 := by
        cases op with
        | missingOp thr => exact ⟨[], by simp [runOp]⟩
        | imputeOp cols m => exact ⟨_, rfl⟩
        | detectOp cols t => exact ⟨_, rfl⟩
        | capOp ps t => exact ⟨_, rfl⟩
      obtain ⟨tl1, h1⟩ := hop
      refine ⟨tl1 ++ tl2, ?_⟩
      rw [show runOps h st (op :: rest) = runOps (runOp h st op).1 (runOp h st op).2 rest
        from rfl, h2, h1, List.append_assoc]

theorem heapGet_append (h tl : Heap) (r : Nat) (hr : r < h.length) :
    heapGet (h ++ tl) r = heapGet h r :=
  List.getD_append _ _ _ _ hr

/-! ## C10 -/

/-- C10: CONFIRMED.  `__init__` copies the caller's dataframe
(`self.df = df.copy()`, a fresh heap object), and every cleaner method
either only reads (`detect_missing_values`, which also leaves the cleaner's
own working table and references untouched) or writes a freshly allocated
copy (`impute_missing_values`, `detect_outliers`, `cap_outliers`), so after
any sequence of cleaner calls the caller's original dataframe object holds
exactly the contents it had before construction. -/
theorem cleaner_preserves_caller_table (h : Heap) (callerRef : Nat) (ops : List CleanerOp)
    (hcall : callerRef < h.length) :
    heapGet (runOps (initCleaner h callerRef).1 (initCleaner h callerRef).2 ops).1 callerRef
      = heapGet h callerRef ∧
    ∀ thr, runOps (initCleaner h callerRef).1 (initCleaner h callerRef).2
        [CleanerOp.missingOp thr]
      = ((initCleaner h callerRef).1, (initCleaner h callerRef).2) := by
  constructor
  · obtain ⟨tl, htl⟩ :=
      runOps_extends ops (initCleaner h callerRef).1 (initCleaner h callerRef).2
    rw [htl, show (initCleaner h callerRef).1 = h ++ [heapGet h callerRef] from rfl,
      List.append_assoc]
    exact heapGet_append h _ callerRef hcall
  · intro thr
    rfl

/-- Witness for `cleaner_preserves_caller_table`: a full pipeline
(impute → detect → cap → report) over a caller table at heap address 0. -/
theorem cleaner_preserves_caller_table_witness :
    heapGet (runOps (initCleaner [[("A", [some 1, none])]] 0).1
        (initCleaner [[("A", [some 1, none])]] 0).2
        [CleanerOp.imputeOp ["A"] .medianM, CleanerOp.detectOp ["A"] 3,
         CleanerOp.capOp [("A", 1)] 3, CleanerOp.missingOp (1/20)]).1 0
      = heapGet [[("A", [some 1, none])]] 0 :=
  (cleaner_preserves_caller_table [[("A", [some 1, none])]] 0
    [CleanerOp.imputeOp ["A"] .medianM, CleanerOp.detectOp ["A"] 3,
     CleanerOp.capOp [("A", 1)] 3, CleanerOp.missingOp (1/20)] (by decide)).1

end SolarSpec
